import Mathlib

/-!
Verification of steghide/cpp_equivs/bit_string_shifts.cpp.

A shallow embedding of the bit-shift diagnostic program and the properties of
its loop.  Machine integers are natural numbers with explicit reduction:
`BYTE` is `unsigned char` (values below 256), `UWORD32` is `unsigned long`
(taken as 64 bits wide; the loop only ever counts to 32, so no statement below
depends on the width).
-/

namespace BitStringShifts

/-- Macro `BITPOS(n) (n % 8)`, line 8. -/
def BITPOS (n : Nat) : Nat := n % 8

/-- Macro `BYTEPOS(n) (n / 8)`, line 9.  Defined by the source, used nowhere in it. -/
def BYTEPOS (n : Nat) : Nat := n / 8

/-- Number of values of `BYTE` (`unsigned char`), line 11. -/
def BYTE_MOD : Nat := 2 ^ 8

/-- Number of values of `UWORD32` (`unsigned long`), line 4. -/
def UWORD32_MOD : Nat := 2 ^ 64

/-- The variables of `main` that the loop body reads and writes: the local
`BYTE test`, the local `bool v` and the global `UWORD32 Length`. -/
structure State where
  test : Nat
  v : Bool
  Length : Nat
  deriving DecidableEq

/-- Lines 15-17: `BYTE test = 1; bool v = true; Length = 0;`. -/
def init : State := { test := 1, v := true, Length := 0 }

/-- The right-hand side `(v << BITPOS(Length))` of line 25 (also printed on
lines 23-24): `v` is promoted to the `int` 0 or 1 and shifted left. -/
def rhs (v : Bool) (Length : Nat) : Nat := v.toNat <<< BITPOS Length

/-- Line 25, `test |= (v << BITPOS(Length))`: the OR is computed on `int` and
the result is converted back to `BYTE`. -/
def orAssign (test : Nat) (v : Bool) (Length : Nat) : Nat :=
  (test ||| rhs v Length) % BYTE_MOD

/-- One pass through the loop body, lines 20-29 (the printing apart):
`test |= (v << BITPOS(Length)); Length++; v=!v;`. -/
def body (s : State) : State :=
  { test := orAssign s.test s.v s.Length
    Length := (s.Length + 1) % UWORD32_MOD
    v := !s.v }

/-- Running the loop body `n` times, one after the other. -/
def loop : Nat → State → State
  | 0, s => s
  | n + 1, s => loop n (body s)

/-- The state after the first `n` iterations of the loop of `main`. -/
def stateAfter (n : Nat) : State := loop n init

/-- The program: `for(int i = 0; i < 32; i++)` runs the body 32 times from the
initial state; the result is the state in which `main` returns. -/
def main : State := loop 32 init

/-- The values that one iteration prints (lines 20-27), in the order printed:
`test` before the update, `v`, `Length`, `BITPOS(Length)`, the right-hand side
`v << BITPOS(Length)`, and `test` after the update. -/
def traceLine (s : State) : Nat × Nat × Nat × Nat × Nat × Nat :=
  (s.test, s.v.toNat, s.Length, BITPOS s.Length, rhs s.v s.Length, (body s).test)

/-- The byte storage of the program read as a packed byte sequence: the single
variable `test` is the only byte the program ever writes (`BYTEPOS` is never
applied, no second byte exists). -/
def packedOutput (s : State) : List Nat := [s.test]

/-- Bit `i` of a packed byte sequence, counted from the start of the stream and
LSB-first within each byte: bit `BITPOS(i)` of byte `BYTEPOS(i)`, when that byte
exists. -/
def streamBit (bytes : List Nat) (i : Nat) : Option Bool :=
  (bytes.get? (BYTEPOS i)).map (fun b => b.testBit (BITPOS i))

/-! Auxiliary lemmas -/

theorem loop_succ_right (n : Nat) (s : State) : loop (n + 1) s = body (loop n s) := by
  induction n generalizing s with
  | zero => rfl
  | succ k ih =>
    show loop (k + 1) (body s) = body (loop k (body s))
    exact ih (body s)

theorem stateAfter_succ (n : Nat) : stateAfter (n + 1) = body (stateAfter n) :=
  loop_succ_right n init

theorem BITPOS_lt (n : Nat) : BITPOS n < 8 := Nat.mod_lt n (by decide)

theorem rhs_false (Length : Nat) : rhs false Length = 0 := by
  simp [rhs]

theorem rhs_true (Length : Nat) : rhs true Length = 2 ^ BITPOS Length := by
  simp [rhs, Nat.one_shiftLeft]

theorem rhs_le (v : Bool) (Length : Nat) : rhs v Length ≤ 128 := by
  cases v with
  | false => simp [rhs_false]
  | true =>
    rw [rhs_true]
    have h : BITPOS Length ≤ 7 := Nat.lt_succ_iff.mp (BITPOS_lt Length)
    calc 2 ^ BITPOS Length ≤ 2 ^ 7 := Nat.pow_le_pow_right (by decide) h
      _ = 128 := by norm_num

theorem rhs_testBit (v : Bool) (Length p : Nat) :
    (rhs v Length).testBit p = (v && decide (BITPOS Length = p)) := by
  cases v with
  | false => simp [rhs_false]
  | true => simp [rhs_true, Nat.testBit_two_pow]

theorem orAssign_eq_or (test : Nat) (v : Bool) (Length : Nat) (h : test < 256) :
    orAssign test v Length = test ||| rhs v Length := by
  have hr : rhs v Length < 2 ^ 8 := lt_of_le_of_lt (rhs_le v Length) (by norm_num)
  have ht : test < 2 ^ 8 := by simpa using h
  exact Nat.mod_eq_of_lt (Nat.or_lt_two_pow ht hr)

theorem orAssign_testBit (test : Nat) (v : Bool) (Length p : Nat) (h : test < 256) :
    (orAssign test v Length).testBit p
      = (test.testBit p || (v && decide (BITPOS Length = p))) := by
  rw [orAssign_eq_or test v Length h, Nat.testBit_or, rhs_testBit]

theorem and_or_self_left (a b : Nat) : a &&& (a ||| b) = a := by
  apply Nat.eq_of_testBit_eq
  intro i
  rw [Nat.testBit_and, Nat.testBit_or]
  cases a.testBit i <;> rfl

theorem le_or_left (a b : Nat) : a ≤ a ||| b := by
  have h : a &&& (a ||| b) ≤ a ||| b := Nat.and_le_right
  rwa [and_or_self_left] at h

theorem stateAfter_v (n : Nat) : (stateAfter n).v = decide (n % 2 = 0) := by
  induction n with
  | zero => rfl
  | succ k ih =>
    rw [stateAfter_succ]
    show (!(stateAfter k).v) = decide ((k + 1) % 2 = 0)
    rw [ih]
    rcases Nat.mod_two_eq_zero_or_one k with h | h
    · have h1 : (k + 1) % 2 = 1 := by omega
      simp [h, h1]
    · have h1 : (k + 1) % 2 = 0 := by omega
      simp [h, h1]

theorem stateAfter_Length (n : Nat) (h : n < UWORD32_MOD) : (stateAfter n).Length = n := by
  induction n with
  | zero => rfl
  | succ k ih =>
    rw [stateAfter_succ]
    show ((stateAfter k).Length + 1) % UWORD32_MOD = k + 1
    rw [ih (Nat.lt_of_succ_lt h)]
    exact Nat.mod_eq_of_lt h

theorem le_32_lt_UWORD32_MOD (n : Nat) (h : n ≤ 32) : n < UWORD32_MOD :=
  lt_of_le_of_lt h (by decide)

theorem stateAfter_test_of_ge (k : Nat) (h7 : 7 ≤ k) (h32 : k ≤ 32) :
    (stateAfter k).test = 85 := by
  interval_cases k <;> rfl

theorem stateAfter_test_lt (n : Nat) (h : n ≤ 32) : (stateAfter n).test < 2 ^ max n 1 := by
  interval_cases n <;> decide

/-! The claims -/

/-- C1: from the initial state (test = 1, v = true, Length = 0) the first 8
iterations OR in the values true, false, true, false, true, false, true, false
at the bit positions 0..7, and after them the byte test is 85 (binary
01010101). -/
theorem C1_first_eight_iterations :
    init = { test := 1, v := true, Length := 0 } ∧
    (List.range 8).map (fun k => ((stateAfter k).v, BITPOS (stateAfter k).Length))
      = [(true, 0), (false, 1), (true, 2), (false, 3),
         (true, 4), (false, 5), (true, 6), (false, 7)] ∧
    (stateAfter 8).test = 85 := by
  decide

/-- C2, as stated, fails: after 9 iterations the packed output holds one byte
only, so bit 8 of the stream (bit 0 of byte 1) does not exist, while the value
ORed in at iteration 8 was true. -/
theorem C2_counterexample :
    9 ≤ 32 ∧ 8 < 9 ∧ (stateAfter 8).v = true ∧
    streamBit (packedOutput (stateAfter 9)) 8 = none ∧
    streamBit (packedOutput (stateAfter 9)) 8 ≠ some (stateAfter 8).v := by
  decide

/-- C2, amended: for every N ≤ 32 and every i < N, after N iterations bit
i mod 8 of the single byte test equals the i-th value of v that was ORed in,
which is true exactly when i is even; the packed output has that one byte only,
and for i < 8 its stream bit i is that value. -/
theorem C2_bit_of_test (N i : Nat) (hN : N ≤ 32) (hi : i < N) :
    (stateAfter N).test.testBit (BITPOS i) = (stateAfter i).v ∧
    (stateAfter i).v = decide (i % 2 = 0) ∧
    (packedOutput (stateAfter N)).length = 1 ∧
    (i < 8 → streamBit (packedOutput (stateAfter N)) i = some (stateAfter i).v) := by
  have hbit : (stateAfter N).test.testBit (BITPOS i) = (stateAfter i).v := by
    rw [stateAfter_v]
    by_cases h7 : 7 ≤ N
    · rw [stateAfter_test_of_ge N h7 hN]
      have hb : BITPOS i < 8 := BITPOS_lt i
      have hpar : BITPOS i % 2 = i % 2 := by unfold BITPOS; omega
      rw [← hpar]
      generalize BITPOS i = b at hb
      interval_cases b <;> decide
    · have hN7 : N < 7 := Nat.lt_of_not_le h7
      have hb : BITPOS i = i := by unfold BITPOS; omega
      rw [hb]
      interval_cases N <;> interval_cases i <;> decide
  refine ⟨hbit, stateAfter_v i, rfl, ?_⟩
  intro h8
  have hpos : BITPOS i = i := by unfold BITPOS; omega
  have hbyte : BYTEPOS i = 0 := by unfold BYTEPOS; omega
  rw [← hbit]
  simp [streamBit, packedOutput, hbyte]

/-- Concrete instance at N = 12, i = 10. -/
theorem C2_bit_of_test_witness :
    (stateAfter 12).test.testBit (BITPOS 10) = (stateAfter 10).v ∧
    (stateAfter 10).v = decide (10 % 2 = 0) ∧
    (packedOutput (stateAfter 12)).length = 1 ∧
    (10 < 8 → streamBit (packedOutput (stateAfter 12)) 10 = some (stateAfter 10).v) :=
  C2_bit_of_test 12 10 (by decide) (by decide)

/-- C3: for every N ≤ 32 the counter Length equals N after N iterations; it is
0 at the start, every iteration of the loop increases it by exactly 1 (so it
does not decrease), and it is 32 when the loop ends. -/
theorem C3_length_counts (N : Nat) (hN : N ≤ 32) :
    (stateAfter N).Length = N ∧
    (stateAfter 0).Length = 0 ∧
    (N < 32 → (stateAfter (N + 1)).Length = (stateAfter N).Length + 1 ∧
              (stateAfter N).Length ≤ (stateAfter (N + 1)).Length) ∧
    main.Length = 32 := by
  have hlen : (stateAfter N).Length = N := stateAfter_Length N (le_32_lt_UWORD32_MOD N hN)
  refine ⟨hlen, rfl, ?_, rfl⟩
  intro hlt
  have hnext : (stateAfter (N + 1)).Length = N + 1 :=
    stateAfter_Length (N + 1) (le_32_lt_UWORD32_MOD (N + 1) hlt)
  rw [hlen, hnext]
  exact ⟨rfl, Nat.le_succ N⟩

/-- Concrete instance at N = 5. -/
theorem C3_length_counts_witness :
    5 ≤ 32 ∧ (stateAfter 5).Length = 5 ∧ (stateAfter 6).Length = (stateAfter 5).Length + 1 :=
  ⟨by decide, (C3_length_counts 5 (by decide)).1,
    ((C3_length_counts 5 (by decide)).2.2.1 (by decide)).1⟩

/-- C4, as stated, fails: after the 9th iteration the packed output is not the
two bytes 85, 1; it has a single byte and no byte 1. -/
theorem C4_counterexample :
    packedOutput (stateAfter 9) ≠ [85, 1] ∧
    (packedOutput (stateAfter 9)).length = 1 ∧
    (packedOutput (stateAfter 9)).get? 1 = none := by
  decide

/-- C4, amended: the 9th iteration ORs in v = true at Length = 8, that is the
value 1 at bit BITPOS(8) = 0 of the same byte test, where the bit is already
set; after it the packed output is the single byte 85 (binary 01010101). -/
theorem C4_ninth_iteration :
    (stateAfter 8).v = true ∧ (stateAfter 8).Length = 8 ∧
    BITPOS (stateAfter 8).Length = 0 ∧
    rhs (stateAfter 8).v (stateAfter 8).Length = 1 ∧
    (stateAfter 8).test = 85 ∧
    packedOutput (stateAfter 9) = [85] := by
  decide

/-- C5, as stated, fails in the initial state: Length is 0 and bit 0 of test,
a position not yet written, is set because test starts at 1. -/
theorem C5_counterexample :
    (stateAfter 0).Length = 0 ∧ (stateAfter 0).Length ≤ 0 ∧ (0 : Nat) < 8 ∧
    (stateAfter 0).test.testBit 0 = true := by
  decide

/-- C5, amended: in every state reached by the loop (after N ≤ 32 iterations,
the initial state included) every bit of test at a position p ≥ Length other
than position 0 is zero. -/
theorem C5_unwritten_bits_zero (N p : Nat) (hN : N ≤ 32)
    (hp : (stateAfter N).Length ≤ p) (hp0 : p ≠ 0) :
    (stateAfter N).test.testBit p = false := by
  rw [stateAfter_Length N (le_32_lt_UWORD32_MOD N hN)] at hp
  have hmax : max N 1 ≤ p := max_le hp (Nat.one_le_iff_ne_zero.mpr hp0)
  have hlt : (stateAfter N).test < 2 ^ p :=
    lt_of_lt_of_le (stateAfter_test_lt N hN) (Nat.pow_le_pow_right (by decide) hmax)
  exact Nat.testBit_lt_two_pow hlt

/-- Concrete instance at N = 3, p = 4. -/
theorem C5_unwritten_bits_zero_witness :
    (stateAfter 3).Length ≤ 4 ∧ (stateAfter 3).test.testBit 4 = false :=
  ⟨by decide, C5_unwritten_bits_zero 3 4 (by decide) (by decide) (by decide)⟩

/-- C6: the update test |= (v << BITPOS(Length)) never clears a bit: for every
byte value test, every v and every Length, each bit set before is set after,
old AND new = old, and new ≥ old. -/
theorem C6_update_never_clears (test : Nat) (v : Bool) (Length : Nat) (h : test < 256) :
    (∀ p, test.testBit p = true → (orAssign test v Length).testBit p = true) ∧
    test &&& orAssign test v Length = test ∧
    test ≤ orAssign test v Length := by
  rw [orAssign_eq_or test v Length h]
  refine ⟨?_, and_or_self_left _ _, le_or_left _ _⟩
  intro p hp
  rw [Nat.testBit_or, hp]
  rfl

/-- Concrete instance at test = 85, v = true, Length = 9. -/
theorem C6_update_never_clears_witness :
    (85 : Nat) < 256 ∧ 85 &&& orAssign 85 true 9 = 85 ∧ 85 ≤ orAssign 85 true 9 :=
  ⟨by decide, (C6_update_never_clears 85 true 9 (by decide)).2⟩

/-- C7, as stated, fails: with test = 1, v = false and Length = 0 the bit at
position Length mod 8 = 0 stays set after the update, so it does not equal v. -/
theorem C7_counterexample :
    (1 : Nat) < 256 ∧ (orAssign 1 false 0).testBit (0 % 8) = true ∧
    (orAssign 1 false 0).testBit (0 % 8) ≠ false := by
  decide

/-- C7, amended: for every byte value test, every v and every Length, after the
update the bit at position Length mod 8 is the OR of its old value and v (so it
equals v when v is true or when the bit was clear before), and every other bit
of test is unchanged. -/
theorem C7_update_sets_one_bit (test : Nat) (v : Bool) (Length : Nat) (h : test < 256) :
    (orAssign test v Length).testBit (Length % 8) = (test.testBit (Length % 8) || v) ∧
    (v = true → (orAssign test v Length).testBit (Length % 8) = v) ∧
    (test.testBit (Length % 8) = false →
      (orAssign test v Length).testBit (Length % 8) = v) ∧
    (∀ p, p ≠ Length % 8 → (orAssign test v Length).testBit p = test.testBit p) := by
  have hbit : (orAssign test v Length).testBit (Length % 8)
      = (test.testBit (Length % 8) || v) := by
    rw [orAssign_testBit test v Length (Length % 8) h]
    simp [BITPOS]
  refine ⟨hbit, ?_, ?_, ?_⟩
  · intro hv
    rw [hbit, hv, Bool.or_true]
  · intro hclear
    rw [hbit, hclear, Bool.false_or]
  · intro p hp
    rw [orAssign_testBit test v Length p h]
    have hne : ¬ BITPOS Length = p := fun e => hp (by rw [← e]; rfl)
    simp [hne]

/-- Concrete instance at test = 5, v = true, Length = 12. -/
theorem C7_update_sets_one_bit_witness :
    (5 : Nat) < 256 ∧
    (orAssign 5 true 12).testBit (12 % 8) = ((5 : Nat).testBit (12 % 8) || true) ∧
    (∀ p, p ≠ 12 % 8 → (orAssign 5 true 12).testBit p = (5 : Nat).testBit p) :=
  ⟨by decide, (C7_update_sets_one_bit 5 true 12 (by decide)).1,
    (C7_update_sets_one_bit 5 true 12 (by decide)).2.2.2⟩

/-- C8: the trace in the comments of lines 31-40 agrees with the program for
the first 10 iterations: per iteration, test before the update, v, Length,
BITPOS(Length), the right-hand side v << BITPOS(Length), and test after the
update. -/
theorem C8_trace_first_ten :
    (List.range 10).map (fun k => traceLine (stateAfter k))
      = [(1, 1, 0, 0, 1, 1), (1, 0, 1, 1, 0, 1), (1, 1, 2, 2, 4, 5), (5, 0, 3, 3, 0, 5),
         (5, 1, 4, 4, 16, 21), (21, 0, 5, 5, 0, 21), (21, 1, 6, 6, 64, 85),
         (85, 0, 7, 7, 0, 85), (85, 1, 8, 0, 1, 85), (85, 0, 9, 1, 0, 85)] := by
  decide

/-- C9: test is 21 after 6 iterations, reaches 85 after 7 and stays there: for
every k with 7 ≤ k ≤ 32 test is 85 after k iterations, and the value ORed in by
the next iteration has no bit outside those already set in test; the program
ends in the state test = 85, Length = 32, v = true. -/
theorem C9_test_stays_85 (k : Nat) (h7 : 7 ≤ k) (h32 : k ≤ 32) :
    (stateAfter k).test = 85 ∧
    (rhs (stateAfter k).v (stateAfter k).Length ||| (stateAfter k).test
      = (stateAfter k).test) ∧
    (stateAfter 6).test = 21 ∧
    main = { test := 85, v := true, Length := 32 } := by
  refine ⟨stateAfter_test_of_ge k h7 h32, ?_, by decide, by decide⟩
  interval_cases k <;> decide

/-- Concrete instance at k = 20. -/
theorem C9_test_stays_85_witness :
    7 ≤ 20 ∧ 20 ≤ 32 ∧ (stateAfter 20).test = 85 :=
  ⟨by decide, by decide, (C9_test_stays_85 20 (by decide) (by decide)).1⟩

/-- C10: for every v and Length, BITPOS(Length) = Length mod 8 lies in 0..7 and
the operand v << BITPOS(Length) is 0 when v is false and 2^(Length mod 8) ≤ 128
when v is true, so it is below 256; for every byte value test, converting the
result of the OR back to the 8-bit test discards no set bit. -/
theorem C10_shift_fits_in_byte (test : Nat) (v : Bool) (Length : Nat) (h : test < 256) :
    BITPOS Length = Length % 8 ∧ BITPOS Length ≤ 7 ∧
    rhs v Length = (if v then 2 ^ (Length % 8) else 0) ∧
    rhs v Length ≤ 128 ∧ rhs v Length < 2 ^ 8 ∧
    orAssign test v Length = test ||| rhs v Length ∧
    (∀ p, (test ||| rhs v Length).testBit p = true →
      (orAssign test v Length).testBit p = true) := by
  refine ⟨rfl, Nat.lt_succ_iff.mp (BITPOS_lt Length), ?_, rhs_le v Length,
    lt_of_le_of_lt (rhs_le v Length) (by norm_num), orAssign_eq_or test v Length h, ?_⟩
  · cases v with
    | false => simp [rhs_false]
    | true => simp [rhs_true, BITPOS]
  · intro p hp
    rw [orAssign_eq_or test v Length h]
    exact hp

/-- Concrete instance at test = 200, v = true, Length = 15. -/
theorem C10_shift_fits_in_byte_witness :
    (200 : Nat) < 256 ∧ rhs true 15 ≤ 128 ∧ orAssign 200 true 15 = 200 ||| rhs true 15 :=
  ⟨by decide, (C10_shift_fits_in_byte 200 true 15 (by decide)).2.2.2.1,
    (C10_shift_fits_in_byte 200 true 15 (by decide)).2.2.2.2.2.1⟩

end BitStringShifts
